import Mathlib

/-!
Verification of the ORM core of the `baserow-client` library: a shallow
embedding, in Lean, of the schema-mapping and query-execution engine
(`src/baserow/orm/*.py` and the pagination helper of `src/baserow/client.py`),
together with theorems settling the specification claims about it.

Python dicts are embedded as association lists with insert-or-overwrite
semantics, Python exceptions as `Except` values, the stateful query cursor and
the memoizing linked-row collection as explicit state passing.
-/

namespace Baserow

/-- Lookup in an association-list embedding of a Python dict: the first binding
of the key (bindings are unique when built through `dictInsert`). -/
def dictLookup {α β : Type} [BEq α] (d : List (α × β)) (k : α) : Option β :=
  (d.find? (fun p => p.1 == k)).map (fun p => p.2)

/-- Insert-or-overwrite, mirroring `d[k] = v` on a Python dict: an existing
binding is replaced in place, a new key is appended (insertion order kept). -/
def dictInsert {α β : Type} [BEq α] (d : List (α × β)) (k : α) (v : β) : List (α × β) :=
  match d with
  | [] => [(k, v)]
  | p :: rest => if p.1 == k then (k, v) :: rest else p :: dictInsert rest k v

/-- Remove a key, mirroring `d.pop(k, None)`. -/
def dictRemove {α β : Type} [BEq α] (d : List (α × β)) (k : α) : List (α × β) :=
  match d with
  | [] => []
  | p :: rest => if p.1 == k then rest else p :: dictRemove rest k

/-- The filter modes of `baserow.filter.FilterMode` (an enum; only carried
along by the ORM, never inspected). -/
inductive FilterMode where
  | equal | not_equal | filename_contains | contains | contains_not
  | higher_than | lower_than | date_equal | date_before | date_after
  | date_not_equal | date_equals_today | date_equals_month | date_equals_year
  | single_select_equal | single_select_not_equal | link_row_has
  | link_row_has_not | boolean | empty | not_empty
  deriving DecidableEq, Repr

/-- `baserow.filter.Filter`: a field token, a mode and an optional value
(the value's wire encoding is out of ORM scope, embedded as a string). -/
structure Filter where
  field : String
  filter : FilterMode
  value : Option String
  deriving DecidableEq, Repr

/-- The placeholder-to-field-id table of
`baserow.orm.database.ColumnPlaceholderTranslator` (a `dict` from `Column.id`
placeholder strings to Baserow internal field IDs). -/
abbrev Translator : Type := List (String × Nat)

/-- `Database._preprocess_filter`: if the filter's field is a registered
placeholder, return a copy of the filter with the field rewritten to
`"field_" ++ <field id>`; otherwise return the filter unchanged. -/
def preprocessFilter (tr : Translator) (f : Filter) : Filter :=
  match dictLookup tr f.field with
  | some fid => { f with field := "field_" ++ Nat.repr fid }
  | none => f

/-- `Column.__init__` placeholder construction:
`user_name + "." + str(uuid.uuid4())`. -/
def mkPlaceholder (userName uuid : String) : String :=
  userName ++ "." ++ uuid

/-- `baserow.orm.column.Column` as a runtime object: `instId` is the Python
object identity (a fresh allocation token), `userName` the remote column name
(`_user_name`), `placeholder` the `_name` placeholder ID exposed as
`Column.id`. -/
structure ColumnE where
  instId : Nat
  userName : String
  placeholder : String
  deriving DecidableEq, Repr

/-- `Column(user_name)`: draw a fresh uuid from the supply `uuidOf` at index
`ctr` (also used as the allocation token) and build the placeholder. Returns
the column and the next counter. -/
def mkColumn (uuidOf : Nat → String) (ctr : Nat) (userName : String) : ColumnE × Nat :=
  ({ instId := ctr, userName := userName, placeholder := mkPlaceholder userName (uuidOf ctr) }, ctr + 1)

/-- `copy.copy(column)` as used by `Model.__init_subclass__` when a subclass
inherits a base model's column: a new object (fresh `instId`) whose `_name`
placeholder and `_user_name` are those of the original. -/
def copyColumn (ctr : Nat) (c : ColumnE) : ColumnE × Nat :=
  ({ c with instId := ctr }, ctr + 1)

/-- The inheritance-merge loop of `Model.__init_subclass__`: for each base
column whose attribute name is not already declared locally, add a shallow
copy. Returns the merged column dict and the next allocation counter. -/
def inheritColumns (ctr : Nat) (own : List (String × ColumnE)) :
    List (String × ColumnE) → List (String × ColumnE) × Nat
  | [] => (own, ctr)
  | (key, c) :: rest =>
    match dictLookup own key with
    | some _ => inheritColumns ctr own rest
    | none =>
      let (c2, ctr2) := copyColumn ctr c
      inheritColumns ctr2 (own ++ [(key, c2)]) rest

/-- The Python exceptions the ORM core can raise, as a closed error type. -/
inductive OrmError where
  /-- `TypeError` from `Model.__init__` for a missing keyword argument. -/
  | missingKeyword (attr : String)
  /-- `TypeError` from `Model.__init__` for an unrecognized keyword argument. -/
  | unexpectedKeyword (attr : String)
  /-- `TypeError` raised by a column's `from_python` hook. -/
  | typeError (msg : String)
  /-- `NotImplementedError` (raised unconditionally by `ForeignKey.from_python`). -/
  | notImplemented
  /-- `KeyError` on a dict subscript. -/
  | keyError (key : String)
  /-- A failed `assert` statement. -/
  | assertionError (msg : String)
  /-- `ValueError` from `int(...)` on a non-numeric string. -/
  | valueError (msg : String)
  /-- `IndexError` on a list subscript. -/
  | indexError
  /-- `RuntimeError("Query has already been executed")`. -/
  | alreadyExecuted
  /-- `baserow.orm.exc.NoRowReturned` (subclass of `BaserowOrmException`),
  raised only by `Query.first` on an empty result. -/
  | noRowReturned
  deriving DecidableEq, Repr

/-- A reference to another row: `baserow.orm.column.Ref` (`{id, value}` link
payload entry: target row id plus display value). -/
structure RefE where
  id : Nat
  name : String
  deriving DecidableEq, Repr

/-- Raw JSON-ish values as they appear in a fetched row: scalars, or the raw
link payload of a link-row field (a list of `{id, value}` entries). -/
inductive RawVal where
  | str (s : String)
  | num (n : Int)
  | links (entries : List RefE)
  deriving DecidableEq, Repr

/-- A value held in a Model instance attribute: either a raw value (plain
`Column`) or a constructed `LinkedRow` collection (`ForeignKey` column).
The collection records its binding (attached to a database or not), its
target model id and its refs; its memo cache — always created empty on this
path — is modelled separately by `LinkedRowE` below. -/
inductive OrmVal where
  | raw (v : RawVal)
  | linkedRow (attached : Bool) (modelId : String) (refs : List RefE)
  deriving DecidableEq, Repr

/-- The kind of a declared column: a plain `Column` or a `ForeignKey` with its
target model. -/
inductive ColKind where
  | plain
  | foreignKey (targetModelId : String)
  deriving DecidableEq, Repr

/-- A declared column as `Database._build_model_from_row` and
`Model.__init__` see it: remote name plus kind. -/
structure ColumnC where
  userName : String
  kind : ColKind
  deriving DecidableEq, Repr

/-- `Column.from_baserow` / `ForeignKey.from_baserow` (named `from_baserow` in
the source): the plain hook is the identity; the foreign-key hook wraps the raw
`{id, value}` entries into a `LinkedRow` bound to the same database
(`LinkedRow(db, self.model, refs)`, cache empty), and raises `TypeError` when
the raw value is not a list of link entries. -/
def fromBaserow (c : ColumnC) (v : RawVal) : Except OrmError OrmVal :=
  match c.kind with
  | .plain => .ok (.raw v)
  | .foreignKey mid =>
    match v with
    | .links entries => .ok (.linkedRow true mid entries)
    | _ => .error (.typeError "link value is not a list of refs")

/-- `Column.from_python` / `ForeignKey.from_python`: the plain hook is the
identity; the foreign-key hook checks the value is a collection (a `LinkedRow`
is one, and so are a raw link list and a string), iterates it checking every
item is an instance of the target model (raw link entries and characters are
not, so a non-empty raw collection raises `TypeError`), then raises
`NotImplementedError` unconditionally. (For a `LinkedRow` with non-empty refs
the source first materializes `list(value)`, fetching every linked row
through the bound database, before reaching the same unconditional raise;
this embedding is only ever evaluated at empty refs, where no fetch
happens.) -/
def fromPython (c : ColumnC) (v : OrmVal) : Except OrmError OrmVal :=
  match c.kind with
  | .plain => .ok v
  | .foreignKey _ =>
    match v with
    | .linkedRow _ _ _ => .error .notImplemented
    | .raw (.links []) => .error .notImplemented
    | .raw (.links (_ :: _)) => .error (.typeError "expected model instance")
    | .raw (.str s) =>
      match s.data with
      | [] => .error .notImplemented
      | _ :: _ => .error (.typeError "expected model instance")
    | .raw (.num _) => .error (.typeError "expected collection")

/-- A `from_python` hook as a black-box function (used to state `Model.__init__`
properties for arbitrary columns). -/
abbrev Hook : Type := OrmVal → Except OrmError OrmVal

/-- The body of `Model.__init__`: first loop over the declared columns in
order — a declared key absent from the kwargs raises `TypeError` immediately,
otherwise `from_python` is applied and the attribute set; second loop over the
kwargs — a key not among the declared columns raises `TypeError`. Returns the
outcome together with the trace of attribute names whose hook was invoked.
`cols` is the full declared column dict, `remaining` the part of the first
loop still to run, `acc` the attributes set so far, `trace` the hooks invoked
so far. -/
def modelInitGo (cols : List (String × Hook)) (kwargs : List (String × OrmVal)) :
    List (String × Hook) → List (String × OrmVal) → List String →
    Except OrmError (List (String × OrmVal)) × List String
  | [], acc, trace =>
    match kwargs.find? (fun kv => (dictLookup cols kv.1).isNone) with
    | some kv => (.error (.unexpectedKeyword kv.1), trace)
    | none => (.ok acc, trace)
  | (key, hook) :: rest, acc, trace =>
    match dictLookup kwargs key with
    | none => (.error (.missingKeyword key), trace)
    | some v =>
      match hook v with
      | .error e => (.error e, trace ++ [key])
      | .ok v2 => modelInitGo cols kwargs rest (acc ++ [(key, v2)]) (trace ++ [key])

/-- `Model.__init__(id, **kwargs)` over declared columns `cols`: outcome (the
attribute dict built, or the first exception) plus the trace of `from_python`
hooks invoked. -/
def modelInit (cols : List (String × Hook)) (kwargs : List (String × OrmVal)) :
    Except OrmError (List (String × OrmVal)) × List String :=
  modelInitGo cols kwargs cols [] []

/-- `baserow.orm.mapping.ModelMapping`: table id, the attribute-name to
field-id dict, and the cached reverse dict (`_reverse_fields`, initialized to
an empty dict — not `None` — by `__post_init__`). -/
structure ModelMappingE where
  table_id : Nat
  fields : List (String × Nat)
  revCache : Option (List (Nat × String))
  deriving DecidableEq, Repr

/-- The dict comprehension `{v: k for k, v in fields.items()}` (later
duplicates overwrite earlier ones). -/
def invertFields (fields : List (String × Nat)) : List (Nat × String) :=
  fields.foldl (fun acc p => dictInsert acc p.2 p.1) []

/-- The `ModelMapping.reverse_fields` property: recompute the cached reverse
dict when it is `None` or its size differs from `fields`, else serve the
cache; returns the reverse dict and the mapping with its (possibly updated)
cache. -/
def reverseFields (m : ModelMappingE) : List (Nat × String) × ModelMappingE :=
  match m.revCache with
  | none =>
    let r := invertFields m.fields
    (r, { m with revCache := some r })
  | some rc =>
    if m.fields.length ≠ rc.length then
      let r := invertFields m.fields
      (r, { m with revCache := some r })
    else
      (rc, m)

/-- `ModelMapping(table_id, fields)` as `__post_init__` leaves it: the reverse
cache is a (shared mutable) empty dict. -/
def mkModelMapping (tableId : Nat) (fields : List (String × Nat)) : ModelMappingE :=
  { table_id := tableId, fields := fields, revCache := some [] }

/-- Mutation of the `fields` dict of a `ModelMapping` (the dataclass field is
public and mutable); the reverse cache is left untouched. -/
def setFields (m : ModelMappingE) (f : List (String × Nat)) : ModelMappingE :=
  { m with fields := f }

/-- A Model schema as the ORM sees it at runtime: the model id (`__id__`) and
the declared column dict (`__columns__`). -/
structure ModelSchema where
  modelId : String
  cols : List (String × ColumnC)
  deriving DecidableEq, Repr

/-- A built Model instance: `id` plus the attribute dict. -/
structure ModelInstC where
  id : Int
  attrs : List (String × OrmVal)
  deriving DecidableEq, Repr

/-- The value of a decimal digit character, else `none`. -/
def digitToNat (c : Char) : Option Nat :=
  if c == '0' then some 0 else if c == '1' then some 1 else
  if c == '2' then some 2 else if c == '3' then some 3 else
  if c == '4' then some 4 else if c == '5' then some 5 else
  if c == '6' then some 6 else if c == '7' then some 7 else
  if c == '8' then some 8 else if c == '9' then some 9 else none

/-- Accumulating decimal parse of a digit list. -/
def digitsToNatGo : List Char → Nat → Option Nat
  | [], acc => some acc
  | c :: cs, acc =>
    match digitToNat c with
    | none => none
    | some d => digitsToNatGo cs (acc * 10 + d)

/-- Python `int(s)` on the non-negative decimal strings that occur after the
`field_` tag of a raw row key: all-digits and non-empty, else a
`ValueError`. -/
def digitsToNat (l : List Char) : Option Nat :=
  match l with
  | [] => none
  | _ => digitsToNatGo l 0

/-- `key.startswith("field_")` combined with `key[6:]`: the characters after
the `field_` tag, or `none` when the key does not start with the tag. -/
def stripFieldTag (key : String) : Option (List Char) :=
  match key.data with
  | 'f' :: 'i' :: 'e' :: 'l' :: 'd' :: '_' :: rest => some rest
  | _ => none

/-- The per-row-key loop body of `Database._build_model_from_row`: assert the
key starts with `field_`, parse the numeric field id, skip ids absent from the
reverse mapping, apply `from_baserow` for the mapped attribute. Builds the
`record` kwargs dict. -/
def buildRecord (rev : List (Nat × String)) (schema : ModelSchema) :
    List (String × RawVal) → Except OrmError (List (String × OrmVal))
  | [] => .ok []
  | (key, v) :: rest =>
    match stripFieldTag key with
    | none => .error (.assertionError key)
    | some digits =>
      match digitsToNat digits with
      | none => .error (.valueError key)
      | some fid =>
        match dictLookup rev fid with
        | none => buildRecord rev schema rest
        | some attr =>
          match dictLookup schema.cols attr with
          | none => .error (.keyError attr)
          | some col =>
            match fromBaserow col v with
            | .error e => .error e
            | .ok w =>
              match buildRecord rev schema rest with
              | .error e => .error e
              | .ok tail => .ok ((attr, w) :: tail)

/-- `Database._build_model_from_row(model, row)`: pop `order` and `id`, decode
every mapped `field_<id>` key through the column's `from_baserow` hook, and
construct the model instance (which re-runs every column's `from_python` hook
via `Model.__init__`). -/
def buildModelFromRow (mm : ModelMappingE) (schema : ModelSchema)
    (row : List (String × RawVal)) : Except OrmError ModelInstC :=
  let row1 := dictRemove row "order"
  match dictLookup row1 "id" with
  | none => .error (.keyError "id")
  | some idv =>
    match idv with
    | .num recordId =>
      let row2 := dictRemove row1 "id"
      match buildRecord (reverseFields mm).1 schema row2 with
      | .error e => .error e
      | .ok record =>
        match (modelInit (schema.cols.map (fun p => (p.1, fromPython p.2))) record).1 with
        | .error e => .error e
        | .ok attrs => .ok { id := recordId, attrs := attrs }
    | _ => .error (.typeError "row id is not an integer")

/-- The arguments `Query._begin` passes to
`BaserowClient.paginated_database_table_rows`: the mapped table id, the
`filter=` keyword, and the `size=` keyword. The call site passes only
`table_id` and `filter=self._filters`, so `size` takes its Python default
`None` — the query's stored `_page_size` is not forwarded. -/
structure RowsCallArgs where
  tableId : Nat
  filters : List Filter
  size : Option Nat
  deriving DecidableEq, Repr

/-- `baserow.orm.database.Query`: accumulated (already preprocessed) filters,
the stored `_page_size`, the paginator (`None` until `_begin`; afterwards the
remaining pages of the generator) and the buffered items of the current page
(`_page_items`). Rows are abstract (`Row`). -/
structure QueryE (Row : Type) where
  tableId : Nat
  filters : List Filter
  pageSize : Option Nat
  paginator : Option (List (List Row))
  pageItems : Option (List Row)

/-- `Query.executed`: true iff `_paginator` is set. -/
def QueryE.executed {Row : Type} (q : QueryE Row) : Bool :=
  q.paginator.isSome

/-- `Database.select(model)` returns a fresh, unexecuted query. -/
def freshQuery {Row : Type} (tableId : Nat) : QueryE Row :=
  { tableId := tableId, filters := [], pageSize := none, paginator := none, pageItems := none }

/-- `Query._begin`: the transport call it issues (see `RowsCallArgs`). -/
def queryBeginArgs {Row : Type} (q : QueryE Row) : RowsCallArgs :=
  { tableId := q.tableId, filters := q.filters, size := none }

/-- One `next()` on the generator `paginated_database_table_rows`: walk the
remaining page chain, skip pages with empty `results` (the generator only
yields non-empty pages and stops after the page with no `next`), and hand out
the first row, the rest of that page, and the remaining chain. -/
def nextFromPages {Row : Type} : List (List Row) → Option (Row × List Row × List (List Row))
  | [] => none
  | p :: rest =>
    match p with
    | [] => nextFromPages rest
    | r :: rs => some (r, rs, rest)

/-- `Query.__next__` over a backend stub: `backend` maps the transport call
arguments to the page chain the paginator will produce. On first use the
paginator is opened via `_begin`; then the buffered page is drained one row at
a time, fetching the next non-empty page when the buffer is exhausted. Returns
`none` (Python `StopIteration`) when the chain ends; the query never returns
to the unexecuted state. -/
def queryNext {Row : Type} (backend : RowsCallArgs → List (List Row))
    (q : QueryE Row) : Option Row × QueryE Row :=
  let pag := match q.paginator with
    | none => backend (queryBeginArgs q)
    | some ps => ps
  match q.pageItems with
  | some (r :: rs) => (some r, { q with paginator := some pag, pageItems := some rs })
  | _ =>
    match nextFromPages pag with
    | none => (none, { q with paginator := some [], pageItems := none })
    | some (r, rs, rest) => (some r, { q with paginator := some rest, pageItems := some rs })

/-- `Query.filter(*filters)`: refuse when already executed, else append the
preprocessed filters and return the (mutated) query. The error outcome leaves
the query unchanged. -/
def queryFilter {Row : Type} (tr : Translator) (q : QueryE Row) (fs : List Filter) :
    Except OrmError Unit × QueryE Row :=
  if q.executed then (.error .alreadyExecuted, q)
  else (.ok (), { q with filters := q.filters ++ fs.map (preprocessFilter tr) })

/-- `Query.page_size(n)`: refuse when already executed, else store the page
size. -/
def queryPageSize {Row : Type} (q : QueryE Row) (n : Nat) :
    Except OrmError Unit × QueryE Row :=
  if q.executed then (.error .alreadyExecuted, q)
  else (.ok (), { q with pageSize := some n })

/-- `Query.first()`: refuse when already executed, force `page_size(1)`, take
one step of iteration, and translate an exhausted iterator into
`NoRowReturned`. The query state (executed, page size forced to 1) survives
either way. -/
def queryFirst {Row : Type} (backend : RowsCallArgs → List (List Row))
    (q : QueryE Row) : Except OrmError Row × QueryE Row :=
  if q.executed then (.error .alreadyExecuted, q)
  else
    match queryNext backend { q with pageSize := some (1 : Nat) } with
    | (some r, q2) => (.ok r, q2)
    | (none, q2) => (.error .noRowReturned, q2)

/-- `baserow.orm.column.LinkedRow` with instances abstract: whether `_db` is
attached, the `_refs` list, and the `_cache` dict keyed by index. -/
structure LinkedRowE (Inst : Type) where
  attached : Bool
  refs : List RefE
  cache : List (Nat × Inst)

/-- `LinkedRow.__len__`: the number of refs (a pure function of the
collection; no database access is even expressible here). -/
def lrLen {Inst : Type} (lr : LinkedRowE Inst) : Nat :=
  lr.refs.length

/-- `LinkedRow.__getitem__`: serve the cache when the index is cached; else
assert attachment, fetch the single row by the ref's id through
`Database._load_single` (abstracted as `load`), cache it under the index and
return it. The `Nat` component counts the backend fetches this call performed
(0 or 1). -/
def lrGet {Inst : Type} (load : Nat → Inst) (lr : LinkedRowE Inst) (i : Nat) :
    Except OrmError (Inst × LinkedRowE Inst × Nat) :=
  match dictLookup lr.cache i with
  | some v => .ok (v, lr, 0)
  | none =>
    if lr.attached then
      match lr.refs.get? i with
      | none => .error .indexError
      | some r =>
        let inst := load r.id
        .ok (inst, { lr with cache := dictInsert lr.cache i inst }, 1)
    else
      .error (.assertionError "not attached to a database")

/-- Run a sequence of index accesses (repeated `__getitem__` calls; iteration
is exactly the access sequence `[0, ..., len-1]`). Returns the final
collection state and the list of indices whose access performed a backend
fetch, in order. An access that raises leaves the state unchanged and fetches
nothing. -/
def lrRun {Inst : Type} (load : Nat → Inst) :
    LinkedRowE Inst → List Nat → LinkedRowE Inst × List Nat
  | lr, [] => (lr, [])
  | lr, i :: rest =>
    match lrGet load lr i with
    | .ok x =>
      ((lrRun load x.2.1 rest).1, (if x.2.2 = 0 then [] else [i]) ++ (lrRun load x.2.1 rest).2)
    | .error _ => lrRun load lr rest

/-- `baserow.types.Table` as schema introspection sees it (id and name). -/
structure TableE where
  id : Nat
  name : String
  deriving DecidableEq, Repr

/-- `baserow.types.Application` as `generate_mapping` uses it: id, name and
table list. -/
structure ApplicationE where
  id : Nat
  name : String
  tables : List TableE
  deriving DecidableEq, Repr

/-- `baserow.types.TableField` as `generate_mapping` uses it (id and name). -/
structure TableFieldE where
  id : Nat
  name : String
  deriving DecidableEq, Repr

/-- The schema-introspection surface of `BaserowClient` that
`generate_mapping` consumes: `list_all_applications()` and
`list_database_table_fields(table_id)`. -/
structure ClientStub where
  apps : List ApplicationE
  tableFields : Nat → List TableFieldE

/-- A column as `generate_mapping` sees it: only the user-defined remote name
(`Column.name`) matters. -/
structure ColumnM where
  userName : String
  deriving DecidableEq, Repr

/-- `baserow.orm.model.ModelMappingDescription`. -/
structure ModelDesc where
  model_id : String
  columns : List (String × ColumnM)
  table_name : String
  field_name_overrides : List (String × String)

/-- The schema-resolution failures of `generate_mapping`, each carrying the
offending name(s) exactly as the raised `ValueError` message does. -/
inductive GenError where
  | databaseNotFound (db : String)
  | tableNotFound (db tbl : String)
  | fieldNotFound (db tbl fld : String)
  deriving DecidableEq, Repr

/-- The effective remote name of a declared column in `generate_mapping`:
`model.field_name_overrides.get(key) or column.name` — an absent override
falls back to the column's remote name, and so does a present override whose
value is the empty string (the only falsy `str`). -/
def effName (overrides : List (String × String)) (key : String) (col : ColumnM) : String :=
  match dictLookup overrides key with
  | some o => if o = "" then col.userName else o
  | none => col.userName

/-- The field index `{f.name: f for f in client.list_database_table_fields(table.id)}`
(later duplicates overwrite earlier ones). -/
def indexFields (fs : List TableFieldE) : List (String × TableFieldE) :=
  fs.foldl (fun acc f => dictInsert acc f.name f) []

/-- The per-column loop of `generate_mapping`: resolve each declared column's
effective remote name in the field index, failing with the offending
database/table/field names when absent, else record `attr -> field id` in
declaration order. -/
def genFields (dbname tblname : String) (overrides : List (String × String))
    (tfIdx : List (String × TableFieldE)) :
    List (String × ColumnM) → Except GenError (List (String × Nat))
  | [] => .ok []
  | (key, col) :: rest =>
    match dictLookup tfIdx (effName overrides key col) with
    | none => .error (.fieldNotFound dbname tblname (effName overrides key col))
    | some f =>
      match genFields dbname tblname overrides tfIdx rest with
      | .error e => .error e
      | .ok tail => .ok ((key, f.id) :: tail)

/-- The per-model body of `generate_mapping`: resolve the table by exact name
in the resolved database's table list, index its fields, resolve every
declared column. -/
def genModel (client : ClientStub) (dbname : String) (db : ApplicationE)
    (desc : ModelDesc) : Except GenError ModelMappingE :=
  match db.tables.find? (fun t => t.name == desc.table_name) with
  | none => .error (.tableNotFound dbname desc.table_name)
  | some table =>
    match genFields dbname desc.table_name desc.field_name_overrides
        (indexFields (client.tableFields table.id)) desc.columns with
    | .error e => .error e
    | .ok fields => .ok (mkModelMapping table.id fields)

/-- `baserow.orm.mapping.DatabaseMapping`. -/
structure DatabaseMappingE where
  database_id : Nat
  models : List (String × ModelMappingE)
  deriving DecidableEq, Repr

/-- The model loop of `generate_mapping`: process the descriptions in order,
inserting `model_id -> ModelMapping` into the accumulated dict; the first
failure aborts. -/
def genModels (client : ClientStub) (dbname : String) (db : ApplicationE)
    (acc : List (String × ModelMappingE)) :
    List ModelDesc → Except GenError (List (String × ModelMappingE))
  | [] => .ok acc
  | d :: rest =>
    match genModel client dbname db d with
    | .error e => .error e
    | .ok mm => genModels client dbname db (dictInsert acc d.model_id mm) rest

/-- `generate_mapping(client, dbname, *models)` over the description form
(`Model.of(...)`; a bare Model class is converted to exactly this description
before use): resolve the database by exact name among all applications, then
every model, and assemble the `DatabaseMapping`. -/
def generateMapping (client : ClientStub) (dbname : String)
    (descs : List ModelDesc) : Except GenError DatabaseMappingE :=
  match client.apps.find? (fun a => a.name == dbname) with
  | none => .error (.databaseNotFound dbname)
  | some db =>
    match genModels client dbname db [] descs with
    | .error e => .error e
    | .ok ms => .ok { database_id := db.id, models := ms }

/-! ### Concrete instances used by counterexamples and witnesses -/

/-- A one-entry translator registering the placeholder `"Name.u0"`. -/
def trEx : Translator := [("Name.u0", 5)]

/-- A filter whose field is the registered placeholder of `trEx`. -/
def fEx : Filter := { field := "Name.u0", filter := .equal, value := some "x" }

/-- A column declared with `Column("Name")`, uuid supply `Nat.repr`, counter 0. -/
def colEx : ColumnE := (mkColumn Nat.repr 0 "Name").1

/-- The shallow copy of `colEx` made by inheritance merging. -/
def colCopyEx : ColumnE := (copyColumn 1 colEx).1

/-- The identity `from_python` hook (the `Column` default). -/
def hookId : Hook := fun v => .ok v

/-- Two declared columns `a`, `b` with default hooks. -/
def colsEx3 : List (String × Hook) := [("a", hookId), ("b", hookId)]

/-- Kwargs supplying only `a` (declared `b` missing). -/
def kwargsEx3 : List (String × OrmVal) := [("a", .raw (.num 1))]

/-- One declared column `a` with the default hook. -/
def colsEx3b : List (String × Hook) := [("a", hookId)]

/-- Kwargs supplying `a` plus the undeclared `c`. -/
def kwargsEx3b : List (String × OrmVal) := [("a", .raw (.num 1)), ("c", .raw (.num 2))]

/-- `ModelMapping(10, {"a": 1})` fresh from construction. -/
def mmEx5 : ModelMappingE := mkModelMapping 10 [("a", 1)]

/-- `mmEx5` after one `reverse_fields` access (cache warm) and an equal-size
replacement mutation of `fields` (`{"a": 2}`). -/
def mmEx5b : ModelMappingE := setFields (reverseFields mmEx5).2 [("a", 2)]

/-- A two-column mapping fresh from construction. -/
def mmEx5w : ModelMappingE := mkModelMapping 10 [("a", 1), ("b", 2)]

/-- A model with a single `ForeignKey` column `links` targeting model
`"Other"`. -/
def schemaEx1 : ModelSchema :=
  { modelId := "Post", cols := [("links", { userName := "Links", kind := .foreignKey "Other" })] }

/-- The mapping for `schemaEx1`: `links` resolved to backend field 100. -/
def mmEx1 : ModelMappingE := mkModelMapping 10 [("links", 100)]

/-- A fetched raw row for `schemaEx1`: id 1, an order value, and an empty
link list in field 100. -/
def rowEx1 : List (String × RawVal) :=
  [("id", .num 1), ("order", .str "1.00"), ("field_100", .links [])]

/-- A fresh query on table 10 over `Nat` rows after `page_size(5)`. -/
def qEx2 : QueryE Nat := (queryPageSize (freshQuery 10) 5).2

/-- A backend stub producing the page chain `[[1, 2], [3]]` for every call. -/
def backendEx : RowsCallArgs → List (List Nat) := fun _ => [[1, 2], [3]]

/-- A fresh query on table 10 over `Nat` rows. -/
def qEx8 : QueryE Nat := freshQuery 10

/-- `qEx8` after one iteration step (execution has begun). -/
def qEx9 : QueryE Nat := (queryNext backendEx qEx8).2

/-- An attached `LinkedRow` over one ref (target row 5) with an empty cache;
instances are the loaded row ids themselves. -/
def lrEx : LinkedRowE Nat := { attached := true, refs := [{ id := 5, name := "a" }], cache := [] }

/-- `lrEx` after index 0 was fetched and cached. -/
def lrExAfter : LinkedRowE Nat :=
  { attached := true, refs := [{ id := 5, name := "a" }], cache := [(0, 5)] }

/-- A backend stub with database `DB` (id 1), table `T` (id 10) and a single
field `N` (id 100). -/
def clientEx6 : ClientStub :=
  { apps := [{ id := 1, name := "DB", tables := [{ id := 10, name := "T" }] }],
    tableFields := fun tid => if tid = 10 then [{ id := 100, name := "N" }] else [] }

/-- A description of model `M` with column `a -> "N"` and a present but empty
override for `a`. -/
def descEx6 : ModelDesc :=
  { model_id := "M", columns := [("a", { userName := "N" })], table_name := "T",
    field_name_overrides := [("a", "")] }

/-- The mapping `generate_mapping` produces for `descEx6` against `clientEx6`. -/
def dmEx6 : DatabaseMappingE :=
  { database_id := 1, models := [("M", mkModelMapping 10 [("a", 100)])] }

/-- The spec's end-to-end stub: database `Blog` (id 1) with table `Posts`
(id 10) having fields `Title` (100) and `Body` (101). -/
def clientBlog : ClientStub :=
  { apps := [{ id := 1, name := "Blog", tables := [{ id := 10, name := "Posts" }] }],
    tableFields := fun tid =>
      if tid = 10 then [{ id := 100, name := "Title" }, { id := 101, name := "Body" }] else [] }

/-- The spec's `Post` model description: `title -> "Title"`, `body -> "Body"`. -/
def descPost : ModelDesc :=
  { model_id := "Post", columns := [("title", { userName := "Title" }), ("body", { userName := "Body" })],
    table_name := "Posts", field_name_overrides := [] }

/-- The `ModelMapping` that `generate_mapping` resolves for `descPost`. -/
def mmBlog : ModelMappingE := mkModelMapping 10 [("title", 100), ("body", 101)]

/-- The `DatabaseMapping` that `generate_mapping` produces for `descPost`
against `clientBlog`. -/
def dmBlog : DatabaseMappingE := { database_id := 1, models := [("Post", mmBlog)] }

/-! ### Dictionary lemmas -/

theorem dictLookup_cons {α β : Type} [BEq α] (p : α × β) (d : List (α × β)) (k : α) :
    dictLookup (p :: d) k = if p.1 == k then some p.2 else dictLookup d k := by
  by_cases h : p.1 == k
  · simp [dictLookup, List.find?_cons_of_pos, h]
  · simp only [dictLookup]
    rw [List.find?_cons_of_neg]
    · simp [h]
    · simpa using h

theorem dictLookup_dictInsert_self {α β : Type} [BEq α] [LawfulBEq α]
    (d : List (α × β)) (k : α) (v : β) :
    dictLookup (dictInsert d k v) k = some v := by
  induction d with
  | nil => simp [dictInsert, dictLookup]
  | cons p rest ih =>
    by_cases h : p.1 == k
    · simp [dictInsert, h, dictLookup_cons]
    · simp only [dictInsert, h, if_false, Bool.false_eq_true]
      rw [dictLookup_cons]
      simp [h, ih]

theorem dictLookup_dictInsert_ne {α β : Type} [BEq α] [LawfulBEq α]
    (d : List (α × β)) (k j : α) (v : β) (h : j ≠ k) :
    dictLookup (dictInsert d k v) j = dictLookup d j := by
  induction d with
  | nil => simp [dictInsert, dictLookup_cons, dictLookup, (beq_iff_eq ..).ne.mpr (Ne.symm h)]
  | cons p rest ih =>
    by_cases hp : p.1 == k
    · have hpk : p.1 = k := by simpa using hp
      rw [dictInsert]
      simp only [hp, if_true]
      rw [dictLookup_cons, dictLookup_cons]
      subst hpk
      simp [show ¬(p.1 == j) = true by simpa using fun he => h he.symm]
    · rw [dictInsert]
      simp only [hp, Bool.false_eq_true, if_false]
      rw [dictLookup_cons, dictLookup_cons, ih]

/-- `dictInsert` of a key absent from the dict appends the binding. -/
theorem dictInsert_of_not_mem {α β : Type} [BEq α] [LawfulBEq α]
    (d : List (α × β)) (k : α) (v : β) (h : ∀ p ∈ d, p.1 ≠ k) :
    dictInsert d k v = d ++ [(k, v)] := by
  induction d with
  | nil => rfl
  | cons p rest ih =>
    have hp : ¬(p.1 == k) = true := by simpa using h p (List.mem_cons_self p rest)
    rw [dictInsert]
    simp only [hp, Bool.false_eq_true, if_false, List.cons_append, List.cons.injEq, true_and]
    exact ih (fun q hq => h q (List.mem_cons_of_mem p hq))

/-! ### Decimal digit strings contain no dot -/

theorem digitChar_ne_dot (n : Nat) : Nat.digitChar n ≠ '.' := by
  by_cases h : n < 16
  · interval_cases n <;> decide
  · have h0 : n ≠ 0 := by omega
    have h1 : n ≠ 1 := by omega
    have h2 : n ≠ 2 := by omega
    have h3 : n ≠ 3 := by omega
    have h4 : n ≠ 4 := by omega
    have h5 : n ≠ 5 := by omega
    have h6 : n ≠ 6 := by omega
    have h7 : n ≠ 7 := by omega
    have h8 : n ≠ 8 := by omega
    have h9 : n ≠ 9 := by omega
    have h10 : n ≠ 10 := by omega
    have h11 : n ≠ 11 := by omega
    have h12 : n ≠ 12 := by omega
    have h13 : n ≠ 13 := by omega
    have h14 : n ≠ 14 := by omega
    have h15 : n ≠ 15 := by omega
    simp [Nat.digitChar, h0, h1, h2, h3, h4, h5, h6, h7, h8, h9, h10, h11, h12, h13, h14, h15]

theorem toDigitsCore_no_dot (f : Nat) : ∀ (n : Nat) (ds : List Char),
    ('.' ∈ ds → False) → '.' ∈ Nat.toDigitsCore 10 f n ds → False := by
  induction f with
  | zero =>
    intro n ds h hm
    exact h (by simpa [Nat.toDigitsCore] using hm)
  | succ f ih =>
    intro n ds h hm
    simp only [Nat.toDigitsCore] at hm
    split at hm
    · rcases List.mem_cons.mp hm with h1 | h2
      · exact digitChar_ne_dot (n % 10) h1.symm
      · exact h h2
    · refine ih (n / 10) (Nat.digitChar (n % 10) :: ds) ?_ hm
      intro hmem
      rcases List.mem_cons.mp hmem with h1 | h2
      · exact digitChar_ne_dot (n % 10) h1.symm
      · exact h h2

theorem repr_no_dot (n : Nat) : '.' ∈ (Nat.repr n).data → False := by
  intro h
  have hdata : (Nat.repr n).data = Nat.toDigitsCore 10 (n + 1) n [] := by
    simp [Nat.repr, Nat.toDigits, List.asString]
  rw [hdata] at h
  exact toDigitsCore_no_dot (n + 1) n [] (by simp) h

theorem fieldRef_no_dot (n : Nat) : '.' ∈ ("field_" ++ Nat.repr n).data → False := by
  intro h
  rw [String.data_append] at h
  rcases List.mem_append.mp h with h1 | h2
  · exact absurd h1 (by decide)
  · exact repr_no_dot n h2

/-- Every placeholder a `Column` constructs contains a dot — the form of the
keys `ColumnPlaceholderTranslator.visit` registers, justifying the
dot-hypothesis of `preprocessFilter_spec`. -/
theorem mkPlaceholder_contains_dot (n u : String) : '.' ∈ (mkPlaceholder n u).data := by
  show '.' ∈ ((n ++ ".") ++ u).data
  rw [String.data_append, String.data_append]
  simp

/-! ### C7: filter placeholder translation -/

/-- C7: `Database._preprocess_filter` is a pure, total function: a filter
whose field is a registered placeholder is returned as a copy with the field
rewritten to `"field_" ++ field_id` (the input value being immutable in this
embedding, the input is left unmutated by construction); a filter whose field
is not registered is returned unchanged; and — since every registered
placeholder contains a `.` (it has the form `user_name ++ "." ++ uuid`) while
a rewritten field `field_<digits>` never does — the function is idempotent. -/
theorem preprocessFilter_spec (tr : Translator) (f : Filter)
    (hdot : ∀ k fid, dictLookup tr k = some fid → '.' ∈ k.data) :
    (∀ fid, dictLookup tr f.field = some fid →
      preprocessFilter tr f = { f with field := "field_" ++ Nat.repr fid }) ∧
    (dictLookup tr f.field = none → preprocessFilter tr f = f) ∧
    preprocessFilter tr (preprocessFilter tr f) = preprocessFilter tr f := by
  refine ⟨?_, ?_, ?_⟩
  · intro fid h; simp [preprocessFilter, h]
  · intro h; simp [preprocessFilter, h]
  · cases h : dictLookup tr f.field with
    | none =>
      have h1 : preprocessFilter tr f = f := by simp [preprocessFilter, h]
      rw [h1, h1]
    | some fid =>
      have h1 : preprocessFilter tr f = { f with field := "field_" ++ Nat.repr fid } := by
        simp [preprocessFilter, h]
      rw [h1]
      cases h2 : dictLookup tr ("field_" ++ Nat.repr fid) with
      | none => simp [preprocessFilter, h2]
      | some fid2 => exact absurd (hdot _ _ h2) (fieldRef_no_dot fid)

/-- Witness for C7 at the concrete translator `trEx` and filter `fEx`. -/
theorem preprocessFilter_spec_witness :
    dictLookup trEx fEx.field = some 5 ∧
    preprocessFilter trEx fEx = { fEx with field := "field_" ++ Nat.repr 5 } ∧
    preprocessFilter trEx (preprocessFilter trEx fEx) = preprocessFilter trEx fEx := by
  have hdot : ∀ k fid, dictLookup trEx k = some fid → '.' ∈ k.data := by
    intro k fid h
    by_cases hk : ("Name.u0" : String) == k
    · have hk2 : k = "Name.u0" := (by simpa using hk : ("Name.u0" : String) = k).symm
      rw [hk2]; decide
    · simp [trEx, dictLookup_cons, hk, dictLookup] at h
  have h := preprocessFilter_spec trEx fEx hdot
  exact ⟨by decide, h.1 5 (by decide), h.2.2⟩

/-! ### C4: column placeholder identity -/

/-- C4 counterexample: the shallow copy a subclass receives for an inherited
column is a distinct `Column` instance with the same placeholder ID as the
base column — inheritance merging does not preserve placeholder uniqueness
across distinct instances. -/
theorem inherited_column_shares_placeholder_cex :
    (inheritColumns 1 [] [("x", colEx)]).1 = [("x", colCopyEx)] ∧
    colCopyEx.instId ≠ colEx.instId ∧
    colCopyEx.placeholder = colEx.placeholder :=
  ⟨rfl, by decide, rfl⟩

/-- C4 amended: two Columns constructed through `Column.__init__` with
distinct uuid draws of equal length (uuid4 strings are 36 characters and
collision-free) have distinct placeholder IDs, whatever their remote names;
the uniqueness claim holds for constructed columns but not for the shallow
copies made by inheritance merging, which share the base column's placeholder
ID. -/
theorem mkColumn_placeholder_distinct (uuidOf : Nat → String) (k1 k2 : Nat) (n1 n2 : String)
    (hne : uuidOf k1 ≠ uuidOf k2) (hlen : (uuidOf k1).length = (uuidOf k2).length) :
    (mkColumn uuidOf k1 n1).1.placeholder ≠ (mkColumn uuidOf k2 n2).1.placeholder := by
  intro h
  apply hne
  have hd : ((n1 ++ ".") ++ uuidOf k1).data = ((n2 ++ ".") ++ uuidOf k2).data :=
    congrArg String.data h
  rw [String.data_append, String.data_append] at hd
  have hlen2 : (uuidOf k1).data.length = (uuidOf k2).data.length := hlen
  exact String.ext (List.append_inj' hd hlen2).2

/-- Witness for the C4 amended theorem at uuid supply `Nat.repr`, indices 0
and 1, both columns named `"Name"`. -/
theorem mkColumn_placeholder_distinct_witness :
    Nat.repr 0 ≠ Nat.repr 1 ∧ (Nat.repr 0).length = (Nat.repr 1).length ∧
    (mkColumn Nat.repr 0 "Name").1.placeholder ≠ (mkColumn Nat.repr 1 "Name").1.placeholder :=
  ⟨by decide, by decide,
    mkColumn_placeholder_distinct Nat.repr 0 1 "Name" "Name" (by decide) (by decide)⟩

/-! ### C3: Model construction -/

theorem modelInitGo_error_of_missing (cols : List (String × Hook)) (kwargs : List (String × OrmVal)) :
    ∀ (remaining : List (String × Hook)) (acc : List (String × OrmVal)) (trace : List String),
    (∃ k ∈ remaining.map Prod.fst, (dictLookup kwargs k).isNone = true) →
    (modelInitGo cols kwargs remaining acc trace).1.isOk = false := by
  intro remaining
  induction remaining with
  | nil =>
    intro acc trace h
    obtain ⟨k, hk, _⟩ := h
    simp at hk
  | cons p rest ih =>
    intro acc trace h
    obtain ⟨key, hook⟩ := p
    obtain ⟨k, hk, hnone⟩ := h
    simp only [List.map_cons] at hk
    rw [modelInitGo]
    cases hl : dictLookup kwargs key with
    | none => rfl
    | some v =>
      rcases List.mem_cons.mp hk with hk1 | hk2
      · exfalso
        rw [hk1, hl] at hnone
        simp at hnone
      · cases hh : hook v with
        | error e => simp only [hh]; rfl
        | ok v2 =>
          simp only [hh]
          exact ih _ _ ⟨k, hk2, hnone⟩

theorem modelInitGo_error_of_extra (cols : List (String × Hook)) (kwargs : List (String × OrmVal)) :
    ∀ (remaining : List (String × Hook)) (acc : List (String × OrmVal)) (trace : List String),
    (∃ kv ∈ kwargs, (dictLookup cols kv.1).isNone = true) →
    (modelInitGo cols kwargs remaining acc trace).1.isOk = false := by
  intro remaining
  induction remaining with
  | nil =>
    intro acc trace h
    obtain ⟨kv, hkv, hnone⟩ := h
    rw [modelInitGo]
    cases hf : kwargs.find? (fun kv => (dictLookup cols kv.1).isNone) with
    | none =>
      exfalso
      rw [List.find?_eq_none] at hf
      exact absurd hnone (by simpa using hf kv hkv)
    | some kv2 => rfl
  | cons p rest ih =>
    intro acc trace h
    obtain ⟨key, hook⟩ := p
    rw [modelInitGo]
    cases hl : dictLookup kwargs key with
    | none => rfl
    | some v =>
      cases hh : hook v with
      | error e => simp only [hh]; rfl
      | ok v2 =>
        simp only [hh]
        exact ih _ _ h

theorem modelInitGo_trace (cols : List (String × Hook)) (kwargs : List (String × OrmVal)) :
    ∀ (remaining : List (String × Hook)) (acc : List (String × OrmVal)) (trace : List String),
    (∀ k ∈ remaining.map Prod.fst, (dictLookup kwargs k).isSome = true) →
    (∀ p ∈ remaining, ∀ v, (p.2 v).isOk = true) →
    (modelInitGo cols kwargs remaining acc trace).2 = trace ++ remaining.map Prod.fst := by
  intro remaining
  induction remaining with
  | nil =>
    intro acc trace _ _
    rw [modelInitGo]
    cases hf : kwargs.find? (fun kv => (dictLookup cols kv.1).isNone) <;> simp
  | cons p rest ih =>
    intro acc trace hall hhooks
    obtain ⟨key, hook⟩ := p
    rw [modelInitGo]
    cases hl : dictLookup kwargs key with
    | none =>
      exfalso
      have := hall key (by simp)
      rw [hl] at this
      simp at this
    | some v =>
      cases hh : hook v with
      | error e =>
        exfalso
        have h2 : (hook v).isOk = true := hhooks (key, hook) (List.mem_cons_self _ _) v
        rw [hh] at h2
        simp [Except.isOk, Except.toBool] at h2
      | ok v2 =>
        simp only [hh]
        rw [ih _ _ (fun k hk => hall k (List.mem_cons_of_mem _ hk))
          (fun q hq => hhooks q (List.mem_cons_of_mem _ hq))]
        simp

/-- C3 counterexample: with declared columns `a`, `b` and kwargs supplying
only `a`, construction fails on the missing `b` — but `a`'s `from_python`
hook has already run; with declared column `a` and kwargs `a`, `c`,
construction fails on the unexpected `c` — after every declared column's
hook has run. The claim's "no hook runs and no partial state is built" is
false. -/
theorem modelInit_runs_hooks_before_failure_cex :
    (modelInit colsEx3 kwargsEx3).1 = .error (.missingKeyword "b") ∧
    (modelInit colsEx3 kwargsEx3).2 = ["a"] ∧
    (modelInit colsEx3b kwargsEx3b).1 = .error (.unexpectedKeyword "c") ∧
    (modelInit colsEx3b kwargsEx3b).2 = ["a"] :=
  ⟨rfl, rfl, rfl, rfl⟩

/-- C3 amended: construction with a missing declared attribute or an
undeclared extra attribute always fails; however, the failure is not
guaranteed to precede every `from_python` hook: the hooks of declared columns
processed before a missing key run first, and in the extra-keyword case (all
declared keys present, hooks succeeding) every declared column's hook runs
before the failure. -/
theorem modelInit_fails_on_mismatch (cols : List (String × Hook)) (kwargs : List (String × OrmVal))
    (h : (∃ k ∈ cols.map Prod.fst, (dictLookup kwargs k).isNone = true) ∨
         (∃ kv ∈ kwargs, (dictLookup cols kv.1).isNone = true)) :
    (modelInit cols kwargs).1.isOk = false ∧
    ((∀ k ∈ cols.map Prod.fst, (dictLookup kwargs k).isSome = true) →
     (∀ p ∈ cols, ∀ v, (p.2 v).isOk = true) →
     (modelInit cols kwargs).2 = cols.map Prod.fst) := by
  constructor
  · cases h with
    | inl h1 => exact modelInitGo_error_of_missing cols kwargs cols [] [] h1
    | inr h2 => exact modelInitGo_error_of_extra cols kwargs cols [] [] h2
  · intro hall hhooks
    simpa using modelInitGo_trace cols kwargs cols [] [] hall hhooks

/-- Witness for C3 amended at the extra-keyword instance `colsEx3b` /
`kwargsEx3b`. -/
theorem modelInit_fails_on_mismatch_witness :
    (modelInit colsEx3b kwargsEx3b).1.isOk = false ∧
    (modelInit colsEx3b kwargsEx3b).2 = ["a"] := by
  have h := modelInit_fails_on_mismatch colsEx3b kwargsEx3b
    (Or.inr ⟨("c", .raw (.num 2)), by simp [kwargsEx3b], rfl⟩)
  refine ⟨h.1, ?_⟩
  have h2 := h.2 ?_ ?_
  · simpa [colsEx3b] using h2
  · intro k hk
    simp [colsEx3b, hookId] at hk
    subst hk
    rfl
  · intro p hp v
    simp [colsEx3b] at hp
    subst hp
    rfl

/-! ### C5: reverse fields -/

theorem foldl_invert_aux : ∀ (f : List (String × Nat)) (acc : List (Nat × String)),
    (f.map Prod.snd).Nodup →
    (∀ p ∈ f, ∀ q ∈ acc, q.1 ≠ p.2) →
    f.foldl (fun a p => dictInsert a p.2 p.1) acc = acc ++ f.map (fun p => (p.2, p.1)) := by
  intro f
  induction f with
  | nil => intro acc _ _; simp
  | cons p rest ih =>
    intro acc hn hd
    rw [List.foldl_cons]
    have hins : dictInsert acc p.2 p.1 = acc ++ [(p.2, p.1)] :=
      dictInsert_of_not_mem acc p.2 p.1 (fun q hq => hd p (List.mem_cons_self _ _) q hq)
    rw [hins, ih]
    · simp
    · exact (List.nodup_cons.mp (by simpa using hn)).2
    · intro r hr q hq
      rcases List.mem_append.mp hq with hq1 | hq2
      · exact hd r (List.mem_cons_of_mem _ hr) q hq1
      · have hq3 : q = (p.2, p.1) := by simpa using hq2
        rw [hq3]
        intro hcontra
        have hc2 : p.2 = r.2 := hcontra
        have hmem : p.2 ∈ rest.map Prod.snd := by
          rw [hc2]
          exact List.mem_map_of_mem Prod.snd hr
        exact (List.nodup_cons.mp (by simpa using hn)).1 hmem

theorem invertFields_eq_map (f : List (String × Nat)) (hv : (f.map Prod.snd).Nodup) :
    invertFields f = f.map (fun p => (p.2, p.1)) := by
  simpa using foldl_invert_aux f [] hv (by simp)

theorem dictLookup_invert (f : List (String × Nat)) (hv : (f.map Prod.snd).Nodup)
    (k : String) (v : Nat) (hm : (k, v) ∈ f) :
    dictLookup (invertFields f) v = some k := by
  rw [invertFields_eq_map f hv]
  induction f with
  | nil => simp at hm
  | cons p rest ih =>
    rw [List.map_cons, dictLookup_cons]
    rcases List.mem_cons.mp hm with hm1 | hm2
    · rw [← hm1]
      simp
    · have hne : ¬((p.2, p.1).1 == v) = true := by
        simp only [beq_iff_eq]
        intro hcontra
        have hmem : v ∈ rest.map Prod.snd := by
          have : (k, v) ∈ rest := hm2
          simpa using List.mem_map_of_mem Prod.snd this
        rw [← hcontra] at hmem
        exact (List.nodup_cons.mp (by simpa using hv)).1 hmem
      rw [if_neg hne]
      exact ih (List.nodup_cons.mp (by simpa using hv)).2 hm2

theorem reverseFields_eq_invert (m : ModelMappingE)
    (h : m.revCache = none ∨ m.revCache = some (invertFields m.fields) ∨
         ∀ rc, m.revCache = some rc → rc.length ≠ m.fields.length) :
    (reverseFields m).1 = invertFields m.fields := by
  rcases h with h | h | h
  · simp [reverseFields, h]
  · cases hc : m.revCache with
    | none => simp [reverseFields, hc]
    | some rc =>
      have hrc : rc = invertFields m.fields := Option.some.inj (hc ▸ h)
      by_cases hl : m.fields.length ≠ rc.length
      · simp [reverseFields, hc, hl]
      · simp only [reverseFields, hc, hrc]
        split <;> rfl
  · cases hc : m.revCache with
    | none => simp [reverseFields, hc]
    | some rc =>
      rw [reverseFields, hc]
      simp [Ne.symm (h rc hc), (h rc hc)]

/-- C5 counterexample: construct `ModelMapping(10, fields={a: 1})`, warm the
reverse cache by one `reverse_fields` access, then mutate `fields` to the
equal-size `{a: 2}`. `reverse_fields` still serves the stale `{1: a}`: the
pair `(a, 2)` of `fields` has no entry `2 -> a` in the reverse map, so
`reverse_fields` is not the exact inverse in this reachable state. -/
theorem reverseFields_stale_after_equal_size_mutation_cex :
    mmEx5b.fields = [("a", 2)] ∧
    (reverseFields mmEx5b).1 = [(1, "a")] ∧
    dictLookup (reverseFields mmEx5b).1 2 = none :=
  ⟨rfl, rfl, rfl⟩

/-- C5 amended: `reverse_fields` is the exact inverse of `fields` (for
injective `fields`) in every state where the cache is unset, the cache is
already the inverse, or the cached reverse map's size differs from `fields`
— in particular after construction and after any size-changing mutation.
An equal-size replacement mutation, however, can leave a stale reverse map
(the length comparison is a heuristic, not a guarantee). -/
theorem reverseFields_exact_inverse (m : ModelMappingE)
    (hv : (m.fields.map Prod.snd).Nodup)
    (h : m.revCache = none ∨ m.revCache = some (invertFields m.fields) ∨
         ∀ rc, m.revCache = some rc → rc.length ≠ m.fields.length) :
    (∀ p ∈ m.fields, dictLookup (reverseFields m).1 p.2 = some p.1) ∧
    (∀ q ∈ (reverseFields m).1, (q.2, q.1) ∈ m.fields) := by
  rw [reverseFields_eq_invert m h]
  constructor
  · intro p hp
    exact dictLookup_invert m.fields hv p.1 p.2 hp
  · intro q hq
    rw [invertFields_eq_map m.fields hv] at hq
    obtain ⟨p, hp, hpq⟩ := List.mem_map.mp hq
    rw [← hpq]
    exact hp

/-- Witness for C5 amended at the freshly constructed two-column mapping
`mmEx5w`. -/
theorem reverseFields_exact_inverse_witness :
    dictLookup (reverseFields mmEx5w).1 1 = some "a" ∧
    dictLookup (reverseFields mmEx5w).1 2 = some "b" := by
  have h := reverseFields_exact_inverse mmEx5w (by decide)
    (Or.inr (Or.inr (by
      intro rc hrc
      have hrc2 : rc = [] := by simpa [mmEx5w, mkModelMapping] using hrc.symm
      rw [hrc2]
      decide)))
  exact ⟨h.1 ("a", 1) (by decide), h.1 ("b", 2) (by decide)⟩

/-! ### C1: building a model instance from a fetched row -/

/-- C1 (code bug): `ForeignKey.from_baserow` does wrap the raw link entries
into a `LinkedRow` bound to the same database without fetching — but
`Database._build_model_from_row` then constructs the instance through
`Model.__init__`, which re-applies every column's `from_python` hook, and
`ForeignKey.from_python` raises `NotImplementedError` unconditionally (after
first materializing — i.e. fetching — every linked row when the link list is
non-empty). Building an instance of a model with a `ForeignKey` column from a
fetched row therefore always fails instead of succeeding lazily. -/
theorem buildModelFromRow_foreignKey_raises :
    fromBaserow { userName := "Links", kind := .foreignKey "Other" } (.links [])
      = .ok (.linkedRow true "Other" []) ∧
    buildModelFromRow mmEx1 schemaEx1 rowEx1 = .error .notImplemented :=
  ⟨rfl, rfl⟩

/-! ### C2: page size is not forwarded to the transport -/

/-- C2 (code bug): a fresh query configured with `page_size(5)` stores the
page size, but `Query._begin` invokes the paginated row source with only the
table id and the accumulated filters — the `size` argument keeps its `None`
default, so the configured page size never reaches the transport. (No
backend call is modelled before the first iteration step: `queryNext` is the
only consumer of the backend.) -/
theorem queryBegin_drops_pageSize :
    qEx2.pageSize = some 5 ∧
    qEx2.executed = false ∧
    (queryBeginArgs qEx2).size = none ∧
    (queryBeginArgs qEx2).filters = qEx2.filters ∧
    (queryBeginArgs qEx2).tableId = qEx2.tableId :=
  ⟨rfl, rfl, rfl, rfl, rfl⟩

/-! ### Query iteration lemmas -/

theorem nextFromPages_none {Row : Type} : ∀ (pages : List (List Row)),
    nextFromPages pages = none → pages.flatten = [] := by
  intro pages
  induction pages with
  | nil => intro _; rfl
  | cons p rest ih =>
    intro h
    cases p with
    | nil =>
      rw [List.flatten_cons, List.nil_append]
      exact ih (by simpa [nextFromPages] using h)
    | cons r rs => simp [nextFromPages] at h

theorem nextFromPages_some {Row : Type} : ∀ (pages : List (List Row)) (r : Row)
    (rs : List Row) (rest : List (List Row)),
    nextFromPages pages = some (r, rs, rest) → pages.flatten = r :: (rs ++ rest.flatten) := by
  intro pages
  induction pages with
  | nil => intro r rs rest h; simp [nextFromPages] at h
  | cons p tail ih =>
    intro r rs rest h
    cases p with
    | nil =>
      rw [List.flatten_cons, List.nil_append]
      exact ih r rs rest (by simpa [nextFromPages] using h)
    | cons a as =>
      rw [nextFromPages] at h
      simp only [Option.some.injEq, Prod.mk.injEq] at h
      obtain ⟨ha, has, htail⟩ := h
      rw [List.flatten_cons, ha, has, htail]
      simp

theorem queryNext_fresh {Row : Type} (backend : RowsCallArgs → List (List Row)) (q : QueryE Row)
    (h1 : q.paginator = none) (h2 : q.pageItems = none) :
    queryNext backend q =
      match nextFromPages (backend (queryBeginArgs q)) with
      | none => (none, { q with paginator := some [], pageItems := none })
      | some (r, rs, rest) => (some r, { q with paginator := some rest, pageItems := some rs }) := by
  simp only [queryNext, h1, h2]

theorem queryNext_executed {Row : Type} (backend : RowsCallArgs → List (List Row)) (q : QueryE Row) :
    (queryNext backend q).2.executed = true := by
  rw [queryNext]
  cases hp : q.pageItems with
  | none =>
    cases hn : nextFromPages (match q.paginator with
        | none => backend (queryBeginArgs q) | some ps => ps) with
    | none => simp [QueryE.executed]
    | some x => obtain ⟨r, rs, rest⟩ := x; simp [QueryE.executed]
  | some items =>
    cases items with
    | nil =>
      cases hn : nextFromPages (match q.paginator with
          | none => backend (queryBeginArgs q) | some ps => ps) with
      | none => simp [QueryE.executed]
      | some x => obtain ⟨r, rs, rest⟩ := x; simp [QueryE.executed]
    | cons r rs => simp [QueryE.executed]

theorem queryBeginArgs_pageSize {Row : Type} (q : QueryE Row) (s : Option Nat) :
    queryBeginArgs { q with pageSize := s } = queryBeginArgs q := rfl

/-- `Query.first` on a not-yet-executed query, characterized: page size is
forced to 1, the paginator is opened, and the outcome is the first element of
the page chain or `NoRowReturned`. -/
theorem queryFirst_fresh {Row : Type} (backend : RowsCallArgs → List (List Row)) (q : QueryE Row)
    (h1 : q.paginator = none) (h2 : q.pageItems = none) :
    queryFirst backend q =
      match nextFromPages (backend (queryBeginArgs q)) with
      | none => (.error .noRowReturned,
          { q with pageSize := some 1, paginator := some [], pageItems := none })
      | some (r, rs, rest) => (.ok r,
          { q with pageSize := some 1, paginator := some rest, pageItems := some rs }) := by
  have hexec : ¬(q.executed = true) := by simp [QueryE.executed, h1]
  have hq1 := queryNext_fresh backend { q with pageSize := some 1 } h1 h2
  rw [queryFirst, if_neg hexec]
  rw [hq1]
  simp only [queryBeginArgs_pageSize]
  cases hn : nextFromPages (backend (queryBeginArgs q)) with
  | none => rfl
  | some x => obtain ⟨r0, rs0, rest0⟩ := x; rfl

/-! ### C8: Query.first -/

/-- C8: on an unexecuted query, `first()` forces `page_size(1)` (the stored
page size of the resulting state is 1, and the query is left executed), and:
when the backend row chain is empty it fails with the distinguished
`NoRowReturned` error (a dedicated constructor, distinct from every other
failure), otherwise it returns exactly the first row in backend
page-then-within-page order. -/
theorem queryFirst_spec {Row : Type} (backend : RowsCallArgs → List (List Row)) (q : QueryE Row)
    (h1 : q.paginator = none) (h2 : q.pageItems = none) :
    (queryFirst backend q).2.pageSize = some 1 ∧
    (queryFirst backend q).2.executed = true ∧
    ((backend (queryBeginArgs q)).flatten = [] →
      (queryFirst backend q).1 = .error .noRowReturned) ∧
    (∀ r rest, (backend (queryBeginArgs q)).flatten = r :: rest →
      (queryFirst backend q).1 = .ok r) := by
  rw [queryFirst_fresh backend q h1 h2]
  cases hn : nextFromPages (backend (queryBeginArgs q)) with
  | none =>
    have hflat := nextFromPages_none _ hn
    refine ⟨rfl, by simp [QueryE.executed], fun _ => rfl, ?_⟩
    intro r rest h
    rw [hflat] at h
    cases h
  | some x =>
    obtain ⟨r0, rs0, rest0⟩ := x
    have hflat := nextFromPages_some _ r0 rs0 rest0 hn
    refine ⟨rfl, by simp [QueryE.executed], ?_, ?_⟩
    · intro h
      rw [hflat] at h
      cases h
    · intro r rest h
      rw [hflat] at h
      injection h with ha hb
      rw [ha]

/-- Witness for C8 at the fresh query `qEx8` and the backend `backendEx`
whose page chain is `[[1, 2], [3]]`: `first()` yields row 1. -/
theorem queryFirst_spec_witness :
    (queryFirst backendEx qEx8).1 = .ok 1 ∧
    (queryFirst backendEx qEx8).2.pageSize = some 1 := by
  have h := queryFirst_spec backendEx qEx8 rfl rfl
  exact ⟨h.2.2.2 1 [2, 3] rfl, h.1⟩

/-! ### C9: a Query is write-once -/

theorem queryFilter_executed {Row : Type} (tr : Translator) (q : QueryE Row) (fs : List Filter)
    (hq : q.executed = true) : queryFilter tr q fs = (.error .alreadyExecuted, q) := by
  rw [queryFilter, if_pos hq]

theorem queryFilter_unexecuted {Row : Type} (tr : Translator) (q : QueryE Row) (fs : List Filter)
    (hq : q.executed = false) :
    queryFilter tr q fs = (.ok (), { q with filters := q.filters ++ fs.map (preprocessFilter tr) }) := by
  rw [queryFilter, if_neg (by simp [hq])]

theorem queryPageSize_executed {Row : Type} (q : QueryE Row) (n : Nat)
    (hq : q.executed = true) : queryPageSize q n = (.error .alreadyExecuted, q) := by
  rw [queryPageSize, if_pos hq]

theorem queryPageSize_unexecuted {Row : Type} (q : QueryE Row) (n : Nat)
    (hq : q.executed = false) :
    queryPageSize q n = (.ok (), { q with pageSize := some n }) := by
  rw [queryPageSize, if_neg (by simp [hq])]

/-- C9: `filter` and `page_size` succeed exactly when the query has not begun
execution (appending the translated filters, resp. storing the page size, and
leaving the query otherwise unchanged); invoked on an executed query they
fail with the `alreadyExecuted` usage error and leave the state untouched.
Iteration and `first()` — even when the result set is empty — leave the query
executed, and no operation ever resets an executed query to unexecuted. -/
theorem query_write_once {Row : Type} (tr : Translator) (backend : RowsCallArgs → List (List Row))
    (q : QueryE Row) (fs : List Filter) (n : Nat) :
    ((queryFilter tr q fs).1.isOk = !q.executed) ∧
    ((queryPageSize q n).1.isOk = !q.executed) ∧
    (q.executed = true → queryFilter tr q fs = (.error .alreadyExecuted, q)) ∧
    (q.executed = true → queryPageSize q n = (.error .alreadyExecuted, q)) ∧
    (q.executed = false →
      queryFilter tr q fs = (.ok (), { q with filters := q.filters ++ fs.map (preprocessFilter tr) }) ∧
      queryPageSize q n = (.ok (), { q with pageSize := some n })) ∧
    ((queryNext backend q).2.executed = true) ∧
    ((queryFirst backend q).2.executed = true) ∧
    ((queryFilter tr q fs).2.executed = q.executed) ∧
    ((queryPageSize q n).2.executed = q.executed) := by
  have hfirst : (queryFirst backend q).2.executed = true := by
    by_cases hq : q.executed = true
    · rw [queryFirst, if_pos hq]
      exact hq
    · have hq2 : q.executed = false := by simpa using hq
      rw [queryFirst, if_neg hq]
      cases hx : queryNext backend { q with pageSize := some 1 } with
      | mk o q2 =>
        have h2 := queryNext_executed backend { q with pageSize := some 1 }
        rw [hx] at h2
        cases o <;> simpa using h2
  refine ⟨?_, ?_, fun h => queryFilter_executed tr q fs h,
    fun h => queryPageSize_executed q n h,
    fun h => ⟨queryFilter_unexecuted tr q fs h, queryPageSize_unexecuted q n h⟩,
    queryNext_executed backend q, hfirst, ?_, ?_⟩
  · by_cases hq : q.executed = true
    · rw [queryFilter_executed tr q fs hq, hq]; rfl
    · have hq2 : q.executed = false := by simpa using hq
      rw [queryFilter_unexecuted tr q fs hq2, hq2]; rfl
  · by_cases hq : q.executed = true
    · rw [queryPageSize_executed q n hq, hq]; rfl
    · have hq2 : q.executed = false := by simpa using hq
      rw [queryPageSize_unexecuted q n hq2, hq2]; rfl
  · by_cases hq : q.executed = true
    · rw [queryFilter_executed tr q fs hq]
    · have hq2 : q.executed = false := by simpa using hq
      rw [queryFilter_unexecuted tr q fs hq2]; rfl
  · by_cases hq : q.executed = true
    · rw [queryPageSize_executed q n hq]
    · have hq2 : q.executed = false := by simpa using hq
      rw [queryPageSize_unexecuted q n hq2]; rfl

/-- Witness for C9: on the fresh query `qEx8`, `filter` succeeds; on `qEx9`
(the same query after one iteration step) it fails with the usage error, and
the query remains executed. -/
theorem query_write_once_witness :
    (queryFilter [] qEx8 []).1.isOk = true ∧
    qEx9.executed = true ∧
    queryFilter [] qEx9 [] = (.error .alreadyExecuted, qEx9) ∧
    queryPageSize qEx9 3 = (.error .alreadyExecuted, qEx9) := by
  have h8 := query_write_once ([] : Translator) backendEx qEx8 ([] : List Filter) 3
  have h9 := query_write_once ([] : Translator) backendEx qEx9 ([] : List Filter) 3
  have hex : qEx9.executed = true := rfl
  exact ⟨by rw [h8.1]; rfl, hex, h9.2.2.1 hex, h9.2.2.2.1 hex⟩

/-! ### C10: LinkedRow laziness and memoization -/

theorem lrGet_ok_cases {Inst : Type} (load : Nat → Inst) (lr : LinkedRowE Inst) (i : Nat)
    (x : Inst × LinkedRowE Inst × Nat) (h : lrGet load lr i = .ok x) :
    (x.2.1 = lr ∧ x.2.2 = 0 ∧ dictLookup lr.cache i = some x.1) ∨
    (dictLookup lr.cache i = none ∧ x.2.2 = 1 ∧
      x.2.1.cache = dictInsert lr.cache i x.1 ∧
      x.2.1.attached = lr.attached ∧ x.2.1.refs = lr.refs) := by
  rw [lrGet] at h
  cases hc : dictLookup lr.cache i with
  | some v =>
    rw [hc] at h
    left
    injection h with h2
    subst h2
    exact ⟨rfl, rfl, rfl⟩
  | none =>
    rw [hc] at h
    by_cases ha : lr.attached = true
    · rw [if_pos ha] at h
      cases hr : lr.refs.get? i with
      | none => rw [hr] at h; cases h
      | some r =>
        rw [hr] at h
        right
        injection h with h2
        subst h2
        exact ⟨rfl, rfl, rfl, rfl, rfl⟩
    · rw [if_neg ha] at h
      cases h

theorem lrRun_count_cached {Inst : Type} (load : Nat → Inst) :
    ∀ (accesses : List Nat) (lr : LinkedRowE Inst) (i : Nat),
    (dictLookup lr.cache i).isSome = true →
    ((lrRun load lr accesses).2.count i = 0) := by
  intro accesses
  induction accesses with
  | nil => intro lr i _; rfl
  | cons j rest ih =>
    intro lr i hi
    rw [lrRun]
    cases hg : lrGet load lr j with
    | error e => exact ih lr i hi
    | ok x =>
      dsimp only
      rcases lrGet_ok_cases load lr j x hg with ⟨hlr, hc0, _⟩ | ⟨hnone, hc1, hcache, _, _⟩
      · rw [hc0, hlr]
        have hif : (if (0 : Nat) = 0 then ([] : List Nat) else [j]) = [] := rfl
        rw [hif, List.nil_append]
        exact ih lr i hi
      · have hij : j ≠ i := by
          intro he
          rw [he] at hnone
          rw [hnone] at hi
          simp at hi
        rw [hc1]
        have hif : (if (1 : Nat) = 0 then ([] : List Nat) else [j]) = [j] := rfl
        rw [hif, List.count_append]
        have hx : (dictLookup x.2.1.cache i).isSome = true := by
          rw [hcache, dictLookup_dictInsert_ne lr.cache j i x.1 (Ne.symm hij)]
          exact hi
        rw [ih x.2.1 i hx]
        rw [List.count_singleton' i j]
        simp [hij]

theorem lrRun_count_le_one {Inst : Type} (load : Nat → Inst) :
    ∀ (accesses : List Nat) (lr : LinkedRowE Inst) (i : Nat),
    (lrRun load lr accesses).2.count i ≤ 1 := by
  intro accesses
  induction accesses with
  | nil => intro lr i; simp [lrRun]
  | cons j rest ih =>
    intro lr i
    rw [lrRun]
    cases hg : lrGet load lr j with
    | error e => exact ih lr i
    | ok x =>
      dsimp only
      rcases lrGet_ok_cases load lr j x hg with ⟨hlr, hc0, _⟩ | ⟨hnone, hc1, hcache, _, _⟩
      · rw [hc0]
        have hif : (if (0 : Nat) = 0 then ([] : List Nat) else [j]) = [] := rfl
        rw [hif, List.nil_append]
        exact ih x.2.1 i
      · rw [hc1]
        have hif : (if (1 : Nat) = 0 then ([] : List Nat) else [j]) = [j] := rfl
        rw [hif, List.count_append]
        by_cases hij : j = i
        · subst hij
          have hx : (dictLookup x.2.1.cache j).isSome = true := by
            rw [hcache, dictLookup_dictInsert_self]
            rfl
          rw [lrRun_count_cached load rest x.2.1 j hx]
          simp
        · have h0 : ([j].count i) = 0 := by
            rw [List.count_singleton' i j]
            simp [hij]
          rw [h0, Nat.zero_add]
          exact ih x.2.1 i

/-- C10: `len(linked_row)` is the number of refs and cannot fetch (it is a
pure function of the collection); `__getitem__` serves the cache with no
fetch when the index is cached, fails on the assertion when uncached and
detached, and otherwise fetches exactly the single row `refs[index].id`,
caches it under the index and returns it; and across any sequence of index
accesses (iteration included — it is index access in order) each index is
fetched at most once. -/
theorem linkedRow_spec {Inst : Type} (load : Nat → Inst) (lr : LinkedRowE Inst)
    (i : Nat) (accesses : List Nat) :
    (lrLen lr = lr.refs.length) ∧
    (∀ v, dictLookup lr.cache i = some v → lrGet load lr i = .ok (v, lr, 0)) ∧
    (dictLookup lr.cache i = none → lr.attached = false →
      lrGet load lr i = .error (.assertionError "not attached to a database")) ∧
    (∀ r, dictLookup lr.cache i = none → lr.attached = true → lr.refs.get? i = some r →
      lrGet load lr i =
        .ok (load r.id, { lr with cache := dictInsert lr.cache i (load r.id) }, 1)) ∧
    ((lrRun load lr accesses).2.count i ≤ 1) := by
  refine ⟨rfl, ?_, ?_, ?_, lrRun_count_le_one load accesses lr i⟩
  · intro v hv
    rw [lrGet, hv]
  · intro hv ha
    rw [lrGet, hv, if_neg (by simp [ha])]
  · intro r hv ha hr
    rw [lrGet, hv, if_pos ha, hr]

/-- Witness for C10: on the attached single-ref collection `lrEx` (empty
cache), index 0 fetches row 5 once and caches it; a triple access of index 0
still fetches at most once. -/
theorem linkedRow_spec_witness :
    lrGet (fun x => x) lrEx 0 = .ok (5, lrExAfter, 1) ∧
    (lrRun (fun x => x) lrEx [0, 0, 0]).2.count 0 ≤ 1 := by
  have h := linkedRow_spec (fun x => x) lrEx 0 [0, 0, 0]
  refine ⟨?_, h.2.2.2.2⟩
  have h4 := h.2.2.2.1 { id := 5, name := "a" } rfl rfl rfl
  exact h4

/-! ### C6: mapping generation -/

theorem indexFields_aux : ∀ (fs : List TableFieldE) (acc : List (String × TableFieldE)),
    (fs.map TableFieldE.name).Nodup →
    (∀ f ∈ fs, ∀ p ∈ acc, p.1 ≠ f.name) →
    fs.foldl (fun a f => dictInsert a f.name f) acc = acc ++ fs.map (fun f => (f.name, f)) := by
  intro fs
  induction fs with
  | nil => intro acc _ _; simp
  | cons f rest ih =>
    intro acc hn hd
    rw [List.foldl_cons]
    have hins : dictInsert acc f.name f = acc ++ [(f.name, f)] :=
      dictInsert_of_not_mem acc f.name f (fun p hp => hd f (List.mem_cons_self _ _) p hp)
    rw [hins, ih]
    · simp
    · exact (List.nodup_cons.mp (by simpa using hn)).2
    · intro g hg p hp
      rcases List.mem_append.mp hp with hp1 | hp2
      · exact hd g (List.mem_cons_of_mem _ hg) p hp1
      · have hp3 : p = (f.name, f) := by simpa using hp2
        rw [hp3]
        intro hcontra
        have hc2 : f.name = g.name := hcontra
        have hmem : f.name ∈ rest.map TableFieldE.name := by
          rw [hc2]
          exact List.mem_map_of_mem TableFieldE.name hg
        exact (List.nodup_cons.mp (by simpa using hn)).1 hmem

theorem indexFields_eq_map (fs : List TableFieldE) (hn : (fs.map TableFieldE.name).Nodup) :
    indexFields fs = fs.map (fun f => (f.name, f)) := by
  simpa using indexFields_aux fs [] hn (by simp)

theorem dictLookup_map_name : ∀ (fs : List TableFieldE) (n : String) (f : TableFieldE),
    (fs.map TableFieldE.name).Nodup →
    (dictLookup (fs.map (fun g => (g.name, g))) n = some f ↔ (f ∈ fs ∧ f.name = n)) := by
  intro fs
  induction fs with
  | nil => intro n f _; simp [dictLookup]
  | cons g rest ih =>
    intro n f hn
    rw [List.map_cons, dictLookup_cons]
    by_cases hg : g.name = n
    · rw [if_pos (by simpa using hg)]
      constructor
      · intro h
        have hf : f = g := (Option.some.inj h).symm
        subst hf
        exact ⟨List.mem_cons_self _ _, hg⟩
      · rintro ⟨hf, hfn⟩
        rcases List.mem_cons.mp hf with hf1 | hf2
        · rw [hf1]
        · exfalso
          have hmem : f.name ∈ rest.map TableFieldE.name := List.mem_map_of_mem _ hf2
          rw [hfn, ← hg] at hmem
          exact (List.nodup_cons.mp (by simpa using hn)).1 hmem
    · rw [if_neg (by simpa using hg)]
      rw [ih n f (List.nodup_cons.mp (by simpa using hn)).2]
      constructor
      · rintro ⟨hf, hfn⟩
        exact ⟨List.mem_cons_of_mem _ hf, hfn⟩
      · rintro ⟨hf, hfn⟩
        rcases List.mem_cons.mp hf with hf1 | hf2
        · exfalso
          rw [hf1] at hfn
          exact hg hfn
        · exact ⟨hf2, hfn⟩

theorem dictLookup_indexFields (fs : List TableFieldE) (hn : (fs.map TableFieldE.name).Nodup)
    (n : String) (f : TableFieldE) :
    dictLookup (indexFields fs) n = some f ↔ (f ∈ fs ∧ f.name = n) := by
  rw [indexFields_eq_map fs hn]
  exact dictLookup_map_name fs n f hn

theorem genFields_ok_iff (dbname tblname : String) (overrides : List (String × String))
    (tfIdx : List (String × TableFieldE)) :
    ∀ cols : List (String × ColumnM),
    ((genFields dbname tblname overrides tfIdx cols).isOk = true ↔
      ∀ kc ∈ cols, (dictLookup tfIdx (effName overrides kc.1 kc.2)).isSome = true) := by
  intro cols
  induction cols with
  | nil => simp [genFields, Except.isOk, Except.toBool]
  | cons kc rest ih =>
    obtain ⟨key, col⟩ := kc
    rw [genFields]
    cases hl : dictLookup tfIdx (effName overrides key col) with
    | none =>
      dsimp only
      constructor
      · intro h
        simp [Except.isOk, Except.toBool] at h
      · intro h
        have h2 := h (key, col) (List.mem_cons_self _ _)
        dsimp only at h2
        rw [hl] at h2
        cases h2
    | some f =>
      cases hr : genFields dbname tblname overrides tfIdx rest with
      | error e =>
        dsimp only
        constructor
        · intro h
          simp [Except.isOk, Except.toBool] at h
        · intro h
          have h2 : ∀ kc ∈ rest, (dictLookup tfIdx (effName overrides kc.1 kc.2)).isSome = true :=
            fun kc hkc => h kc (List.mem_cons_of_mem _ hkc)
          have h3 := ih.mpr h2
          rw [hr] at h3
          simp [Except.isOk, Except.toBool] at h3
      | ok tail =>
        dsimp only
        constructor
        · intro _ kc hkc
          rcases List.mem_cons.mp hkc with h1 | h2
          · rw [h1]
            dsimp only
            rw [hl]
            rfl
          · exact (ih.mp (by rw [hr]; rfl)) kc h2
        · intro _
          rfl

theorem genFields_error (dbname tblname : String) (overrides : List (String × String))
    (tfIdx : List (String × TableFieldE)) :
    ∀ cols e, genFields dbname tblname overrides tfIdx cols = .error e →
      ∃ key col, (key, col) ∈ cols ∧
        e = .fieldNotFound dbname tblname (effName overrides key col) ∧
        dictLookup tfIdx (effName overrides key col) = none := by
  intro cols
  induction cols with
  | nil =>
    intro e h
    simp [genFields] at h
  | cons kc rest ih =>
    obtain ⟨key, col⟩ := kc
    intro e h
    rw [genFields] at h
    cases hl : dictLookup tfIdx (effName overrides key col) with
    | none =>
      rw [hl] at h
      injection h with h2
      exact ⟨key, col, List.mem_cons_self _ _, h2.symm, hl⟩
    | some f =>
      rw [hl] at h
      dsimp only at h
      cases hr : genFields dbname tblname overrides tfIdx rest with
      | error e2 =>
        rw [hr] at h
        injection h with h2
        obtain ⟨k2, c2, hm, he, hn2⟩ := ih e2 hr
        exact ⟨k2, c2, List.mem_cons_of_mem _ hm, by rw [← h2, he], hn2⟩
      | ok tail =>
        rw [hr] at h
        cases h

theorem genFields_ok_lookup (dbname tblname : String) (overrides : List (String × String))
    (tfIdx : List (String × TableFieldE)) :
    ∀ cols fields, genFields dbname tblname overrides tfIdx cols = .ok fields →
      (cols.map Prod.fst).Nodup →
      ∀ key col, (key, col) ∈ cols →
        ∃ f, dictLookup tfIdx (effName overrides key col) = some f ∧
             dictLookup fields key = some f.id := by
  intro cols
  induction cols with
  | nil =>
    intro fields _ _ key col hm
    simp at hm
  | cons kc rest ih =>
    obtain ⟨k0, c0⟩ := kc
    intro fields h hn key col hm
    rw [genFields] at h
    cases hl : dictLookup tfIdx (effName overrides k0 c0) with
    | none =>
      rw [hl] at h
      cases h
    | some f0 =>
      rw [hl] at h
      dsimp only at h
      cases hr : genFields dbname tblname overrides tfIdx rest with
      | error e =>
        rw [hr] at h
        cases h
      | ok tail =>
        rw [hr] at h
        injection h with h2
        rcases List.mem_cons.mp hm with h1 | h2m
        · have hk : key = k0 := congrArg Prod.fst h1
          have hc : col = c0 := congrArg Prod.snd h1
          refine ⟨f0, by rw [hk, hc]; exact hl, ?_⟩
          rw [← h2, dictLookup_cons]
          rw [hk]
          simp
        · have hne : k0 ≠ key := by
            intro he
            have hmem : key ∈ rest.map Prod.fst := List.mem_map_of_mem Prod.fst h2m
            rw [← he] at hmem
            exact (List.nodup_cons.mp (by simpa using hn)).1 hmem
          obtain ⟨f, hfl, hlk⟩ :=
            ih tail hr (List.nodup_cons.mp (by simpa using hn)).2 key col h2m
          refine ⟨f, hfl, ?_⟩
          rw [← h2, dictLookup_cons, if_neg (by simpa using hne)]
          exact hlk

theorem genModels_preserve (client : ClientStub) (dbname : String) (db : ApplicationE) :
    ∀ (descs : List ModelDesc) (acc res : List (String × ModelMappingE)),
      genModels client dbname db acc descs = .ok res →
      ∀ k v, dictLookup acc k = some v → (∀ d ∈ descs, d.model_id ≠ k) →
      dictLookup res k = some v := by
  intro descs
  induction descs with
  | nil =>
    intro acc res h k v hv _
    rw [genModels] at h
    injection h with h2
    rw [← h2]
    exact hv
  | cons d rest ih =>
    intro acc res h k v hv hd
    rw [genModels] at h
    cases hm : genModel client dbname db d with
    | error e =>
      rw [hm] at h
      cases h
    | ok mm =>
      rw [hm] at h
      dsimp only at h
      refine ih (dictInsert acc d.model_id mm) res h k v ?_
        (fun d2 hd2 => hd d2 (List.mem_cons_of_mem _ hd2))
      rw [dictLookup_dictInsert_ne acc d.model_id k mm
        (Ne.symm (hd d (List.mem_cons_self _ _)))]
      exact hv

theorem genModels_ok (client : ClientStub) (dbname : String) (db : ApplicationE) :
    ∀ (descs : List ModelDesc) (acc res : List (String × ModelMappingE)),
      genModels client dbname db acc descs = .ok res →
      (descs.map ModelDesc.model_id).Nodup →
      ∀ d ∈ descs, ∃ mm, genModel client dbname db d = .ok mm ∧
        dictLookup res d.model_id = some mm := by
  intro descs
  induction descs with
  | nil =>
    intro acc res _ _ d hd
    simp at hd
  | cons d0 rest ih =>
    intro acc res h hn d hd
    rw [genModels] at h
    cases hm : genModel client dbname db d0 with
    | error e =>
      rw [hm] at h
      cases h
    | ok mm0 =>
      rw [hm] at h
      dsimp only at h
      rcases List.mem_cons.mp hd with h1 | h2
      · subst h1
        refine ⟨mm0, hm, ?_⟩
        refine genModels_preserve client dbname db rest
          (dictInsert acc d.model_id mm0) res h d.model_id mm0
          (dictLookup_dictInsert_self acc d.model_id mm0) ?_
        intro d2 hd2 he
        have hmem : d.model_id ∈ rest.map ModelDesc.model_id := by
          rw [← he]
          exact List.mem_map_of_mem ModelDesc.model_id hd2
        exact (List.nodup_cons.mp (by simpa using hn)).1 hmem
      · exact ih (dictInsert acc d0.model_id mm0) res h
          (List.nodup_cons.mp (by simpa using hn)).2 d h2

/-- C6 counterexample: a present but empty-string override is ignored by
`generate_mapping` (`overrides.get(key) or column.name` treats the empty
string as falsy): against a backend whose table has only the field `N`
(id 100) and no field named `""`, the model description overriding column
`a` to `""` does not fail with a field-not-found error naming `""` — it
succeeds and maps `a` to field 100, the field named by the column's own
remote name. -/
theorem generateMapping_empty_override_cex :
    generateMapping clientEx6 "DB" [descEx6] = .ok dmEx6 ∧
    dictLookup descEx6.field_name_overrides "a" = some "" ∧
    (clientEx6.tableFields 10).all (fun f => f.name != "") = true :=
  ⟨rfl, rfl, rfl⟩

/-- C6 amended: `generate_mapping` fails with an error naming the missing
database, table, or field whenever the exact-name lookup at the corresponding
step finds no match (never silently skipping a declared column), and
otherwise returns a mapping whose per-model `fields` maps each declared
attribute to the id of the backend field whose name equals the effective
remote name — the per-attribute override if present **and non-empty**, else
the Column's own remote name (`effName`). -/
theorem generateMapping_spec (client : ClientStub) (dbname : String) (descs : List ModelDesc) :
    (client.apps.find? (fun a => a.name == dbname) = none →
      generateMapping client dbname descs = .error (.databaseNotFound dbname)) ∧
    (∀ db desc, db.tables.find? (fun t => t.name == desc.table_name) = none →
      genModel client dbname db desc = .error (.tableNotFound dbname desc.table_name)) ∧
    (∀ db desc table e, db.tables.find? (fun t => t.name == desc.table_name) = some table →
      genModel client dbname db desc = .error e →
      ∃ key col, (key, col) ∈ desc.columns ∧
        e = .fieldNotFound dbname desc.table_name (effName desc.field_name_overrides key col) ∧
        dictLookup (indexFields (client.tableFields table.id))
          (effName desc.field_name_overrides key col) = none) ∧
    (∀ db desc table, db.tables.find? (fun t => t.name == desc.table_name) = some table →
      ((genModel client dbname db desc).isOk = true ↔
        ∀ kc ∈ desc.columns,
          (dictLookup (indexFields (client.tableFields table.id))
            (effName desc.field_name_overrides kc.1 kc.2)).isSome = true)) ∧
    (∀ db dm, client.apps.find? (fun a => a.name == dbname) = some db →
      generateMapping client dbname descs = .ok dm →
      dm.database_id = db.id ∧
      ((descs.map ModelDesc.model_id).Nodup →
        ∀ d ∈ descs, ∃ mm, genModel client dbname db d = .ok mm ∧
          dictLookup dm.models d.model_id = some mm)) ∧
    (∀ db desc table mm key col,
      db.tables.find? (fun t => t.name == desc.table_name) = some table →
      genModel client dbname db desc = .ok mm →
      (desc.columns.map Prod.fst).Nodup →
      ((client.tableFields table.id).map TableFieldE.name).Nodup →
      (key, col) ∈ desc.columns →
      mm.table_id = table.id ∧
      ∃ f, f ∈ client.tableFields table.id ∧
        f.name = effName desc.field_name_overrides key col ∧
        dictLookup mm.fields key = some f.id) := by
  refine ⟨?_, ?_, ?_, ?_, ?_, ?_⟩
  · intro h
    rw [generateMapping, h]
  · intro db desc h
    rw [genModel, h]
  · intro db desc table e hfind h
    rw [genModel, hfind] at h
    dsimp only at h
    cases hg : genFields dbname desc.table_name desc.field_name_overrides
        (indexFields (client.tableFields table.id)) desc.columns with
    | error e2 =>
      rw [hg] at h
      injection h with h2
      obtain ⟨key, col, hm, he, hn⟩ := genFields_error dbname desc.table_name
        desc.field_name_overrides (indexFields (client.tableFields table.id))
        desc.columns e2 hg
      exact ⟨key, col, hm, by rw [← h2, he], hn⟩
    | ok fields =>
      rw [hg] at h
      cases h
  · intro db desc table hfind
    rw [genModel, hfind]
    dsimp only
    cases hg : genFields dbname desc.table_name desc.field_name_overrides
        (indexFields (client.tableFields table.id)) desc.columns with
    | error e =>
      have h2 := genFields_ok_iff dbname desc.table_name desc.field_name_overrides
        (indexFields (client.tableFields table.id)) desc.columns
      rw [hg] at h2
      exact h2
    | ok fields =>
      have h2 := genFields_ok_iff dbname desc.table_name desc.field_name_overrides
        (indexFields (client.tableFields table.id)) desc.columns
      rw [hg] at h2
      exact h2
  · intro db dm hfind h
    rw [generateMapping, hfind] at h
    dsimp only at h
    cases hg : genModels client dbname db [] descs with
    | error e =>
      rw [hg] at h
      cases h
    | ok ms =>
      rw [hg] at h
      dsimp only at h
      injection h with h2
      constructor
      · rw [← h2]
      · intro hn d hd
        obtain ⟨mm, hmm, hlk⟩ := genModels_ok client dbname db descs [] ms hg hn d hd
        refine ⟨mm, hmm, ?_⟩
        rw [← h2]
        exact hlk
  · intro db desc table mm key col hfind h hnc hnf hm
    rw [genModel, hfind] at h
    dsimp only at h
    cases hg : genFields dbname desc.table_name desc.field_name_overrides
        (indexFields (client.tableFields table.id)) desc.columns with
    | error e =>
      rw [hg] at h
      cases h
    | ok fields =>
      rw [hg] at h
      dsimp only at h
      injection h with h2
      obtain ⟨f, hfl, hlk⟩ := genFields_ok_lookup dbname desc.table_name
        desc.field_name_overrides (indexFields (client.tableFields table.id))
        desc.columns fields hg hnc key col hm
      obtain ⟨hfm, hfn⟩ := (dictLookup_indexFields (client.tableFields table.id) hnf
        (effName desc.field_name_overrides key col) f).mp hfl
      exact ⟨by rw [← h2]; rfl, f, hfm, hfn, by rw [← h2]; exact hlk⟩

/-- Witness for C6 amended at the spec's end-to-end stub (`Blog`/`Posts`
with `Title` 100 and `Body` 101): generation succeeds and resolves `Post` to
table 10 with `title -> 100`. -/
theorem generateMapping_spec_witness :
    generateMapping clientBlog "Blog" [descPost] = .ok dmBlog ∧
    dictLookup dmBlog.models "Post" = some mmBlog ∧
    dictLookup mmBlog.fields "title" = some 100 := by
  have h := generateMapping_spec clientBlog "Blog" [descPost]
  have h5 := (h.2.2.2.2.1 { id := 1, name := "Blog", tables := [{ id := 10, name := "Posts" }] }
    dmBlog rfl rfl).2 (by decide) descPost (List.mem_cons_self _ _)
  obtain ⟨mm, hmm, hlk⟩ := h5
  have hmm2 : mm = mmBlog := by
    have hgen : genModel clientBlog "Blog"
        { id := 1, name := "Blog", tables := [{ id := 10, name := "Posts" }] } descPost
        = .ok mmBlog := rfl
    rw [hgen] at hmm
    exact (Except.ok.inj hmm).symm
  rw [hmm2] at hlk
  exact ⟨rfl, hlk, rfl⟩

end Baserow
